import Mathlib

/-!
Shallow embedding of the `iodict` store (`src/iodict/__init__.py`).

The store keeps one file per key in a flat directory.  We model the
directory as an association list from file names to records, kept in
discovery (creation) order; a record carries the serialized value, the
optional `user.birthtime` and `user.key` extended attributes, and the
stat `st_ctime` fallback timestamp.  Wall-clock time (`time.time()`)
is modelled by a monotone `clock` counter carried in the store and
advanced on every write.  The key encoder (`self._encoder`, either
`_object_sha3_224` or `str`) is modelled by an abstract digest
function `hash : String → String` together with the store's
xattr-support flag; on string keys `str` is the identity.  Values are
modelled by a small type of Python values, so that Python truthiness
(`if default:`, `if key:`) is expressible.  Exceptions become `Except`
results; `KeyError(x)` is `Err.keyError x`.
-/

/-- A Python value, as far as the store's control flow can observe it:
the payload is stored and returned opaquely, but `pop`'s `if default:`
and `_setxattr`'s `if key:` branch on truthiness. -/
inductive PyVal where
  | none
  | bool (b : Bool)
  | int (n : Int)
  | str (s : String)
deriving DecidableEq, Repr

/-- Python truthiness of a `PyVal` (`bool(v)`). -/
def PyVal.truthy : PyVal → Bool
  | .none => false
  | .bool b => b
  | .int n => if n = 0 then false else true
  | .str s => if s = "" then false else true

/-- Caller-visible errors.  The source raises `KeyError(key)` for a
missing record and `KeyError("popitem(): dictionary is empty")` from
`popitem` on an empty store. -/
inductive Err where
  | keyError (msg : String)
deriving DecidableEq, Repr

/-- One file of the store directory: its content (the pickled value),
its `user.birthtime` and `user.key` extended attributes (absent either
because never set or because the filesystem lacks xattr support), and
its stat change time, updated on every write. -/
structure Record where
  value : PyVal
  birthtime : Option Nat
  keyAttr : Option String
  ctime : Nat
deriving DecidableEq, Repr

/-- The datastore: the directory listing in discovery order, the
xattr-support probe result from `__init__` (which fixed
`self._encoder`), and the current wall-clock reading. -/
structure Store where
  files : List (String × Record)
  xattr : Bool
  clock : Nat
deriving DecidableEq, Repr

/-- The key encoder chosen in `__init__`: `_object_sha3_224` when the
directory supports xattrs, `str` (identity on string keys) otherwise. -/
def encode (hash : String → String) (xattr : Bool) (k : String) : String :=
  if xattr then hash k else k

/-- Find the record stored under file name `f` (the file's content). -/
def lookupFile : List (String × Record) → String → Option Record
  | [], _ => Option.none
  | e :: es, f => if e.1 = f then some e.2 else lookupFile es f

/-- Remove the file named `f` from the directory (`os.unlink`). -/
def removeFile : List (String × Record) → String → List (String × Record)
  | [], _ => []
  | e :: es, f => if e.1 = f then es else e :: removeFile es f

/-- Write record `r` to the file named `f`: overwrite in place when the
file exists, otherwise create it (appearing last in discovery order). -/
def writeFile : List (String × Record) → String → Record → List (String × Record)
  | [], f, r => [(f, r)]
  | e :: es, f, r => if e.1 = f then (f, r) :: es else e :: writeFile es f r

namespace IODict

/-- Embedding of `_get_create_time`: prefer the `user.birthtime`
attribute; when it is absent (or xattrs unsupported) fall back to the
stat timestamp. -/
def get_create_time (r : Record) : Nat :=
  match r.birthtime with
  | some b => b
  | Option.none => r.ctime

/-- Embedding of `_get_item_key`: read the `user.key` attribute, and
when absent fall back to the file's base name.  (The
`FileNotFoundError` branch needs the file to vanish mid-read, which
cannot happen in this single-actor model.) -/
def get_item_key (fname : String) (r : Record) : String :=
  match r.keyAttr with
  | some k => k
  | Option.none => fname

/-- Embedding of `_setxattr` acting on an existing file's record.  With
xattr support: stamp `user.birthtime` with the current time only when
it is not already present, then write `user.key` when `key` is truthy.
Without xattr support every `setxattr` raises and is swallowed. -/
def setxattr (xattr : Bool) (now : Nat) (r : Record) (key : String) : Record :=
  if xattr then
    let r1 := match r.birthtime with
      | some _ => r
      | Option.none => { r with birthtime := some now }
    if key = "" then r1 else { r1 with keyAttr := some key }
  else r

/-- Embedding of `__setitem__`: resolve the key to a file name, write
the pickled value (truncating an existing file, which updates its stat
time but keeps its xattrs), then run `_setxattr`; time advances. -/
def setitem (hash : String → String) (s : Store) (k : String) (v : PyVal) : Store :=
  let fname := encode hash s.xattr k
  let base : Record :=
    match lookupFile s.files fname with
    | some r => { r with value := v, ctime := s.clock }
    | Option.none => { value := v, birthtime := Option.none, keyAttr := Option.none, ctime := s.clock }
  { s with files := writeFile s.files fname (setxattr s.xattr s.clock base k),
           clock := s.clock + 1 }

/-- Embedding of `__getitem__`: unpickle the file's content, or raise
`KeyError(key)` when the file does not exist. -/
def getitem (hash : String → String) (s : Store) (k : String) : Except Err PyVal :=
  match lookupFile s.files (encode hash s.xattr k) with
  | some r => Except.ok r.value
  | Option.none => Except.error (Err.keyError k)

/-- Embedding of `__delitem__`: unlink the file, or raise
`KeyError(key)` when it does not exist. -/
def delitem (hash : String → String) (s : Store) (k : String) : Except Err Store :=
  match lookupFile s.files (encode hash s.xattr k) with
  | some _ => Except.ok { s with files := removeFile s.files (encode hash s.xattr k) }
  | Option.none => Except.error (Err.keyError k)

/-- The `(key, create_time, path)` triples collected by `__iter__`
before sorting, in discovery order.  (The per-entry existence checks
and `FileNotFoundError` skips only fire when another actor deletes
files mid-scan, which cannot happen in this single-actor model.) -/
def iterTriples (s : Store) : List (String × Nat × String) :=
  s.files.map (fun e => (get_item_key e.1 e.2, get_create_time e.2, e.1))

/-- The comparison `sorted(items, key=operator.itemgetter(1))` sorts
by: creation time, ascending. -/
def timeLE (a b : String × Nat × String) : Bool :=
  decide (a.2.1 ≤ b.2.1)

/-- The sorted triple list of `__iter__`: Python's `sorted` is a
stable merge sort on the creation time. -/
def iterSorted (s : Store) : List (String × Nat × String) :=
  (iterTriples s).mergeSort timeLE

/-- Embedding of a full `__iter__` run: the keys it yields, in order. -/
def iterKeys (s : Store) : List String :=
  (iterSorted s).map (fun e => e.1)

/-- Embedding of `__len__`: count the keys yielded by `__iter__`. -/
def len (s : Store) : Nat :=
  (iterKeys s).length

/-- Embedding of `get`: `__getitem__`, with `KeyError` turned into the
`default` argument (`None` when omitted). -/
def get (hash : String → String) (s : Store) (k : String) (default : PyVal) : PyVal :=
  match getitem hash s k with
  | Except.ok v => v
  | Except.error _ => default

/-- Embedding of `pop`: `__getitem__` with `__delitem__` in a
`finally`, so the delete always runs and its `KeyError` replaces the
lookup's; a caught `KeyError` returns `default` only when `default` is
truthy and re-raises otherwise.  The result pairs the returned value
with the store as `pop` leaves it. -/
def pop (hash : String → String) (s : Store) (k : String) (default : PyVal) :
    Except Err (PyVal × Store) :=
  match getitem hash s k, delitem hash s k with
  | Except.ok v, Except.ok s' => Except.ok (v, s')
  | Except.ok _, Except.error e =>
      if default.truthy then Except.ok (default, s) else Except.error e
  | Except.error e, Except.ok s' =>
      if default.truthy then Except.ok (default, s') else Except.error e
  | Except.error _, Except.error e =>
      if default.truthy then Except.ok (default, s) else Except.error e

/-- Embedding of `popitem`: `pop` the first key yielded by
`__iter__(index=0)` (no default, i.e. `None`); when the generator is
exhausted at once, raise `KeyError("popitem(): dictionary is empty")`. -/
def popitem (hash : String → String) (s : Store) : Except Err (PyVal × Store) :=
  match iterKeys s with
  | [] => Except.error (Err.keyError "popitem(): dictionary is empty")
  | k :: _ => pop hash s k PyVal.none

/-- Embedding of `setdefault`: unconditionally `__setitem__` the
default, then return it. -/
def setdefault (hash : String → String) (s : Store) (k : String) (default : PyVal) :
    PyVal × Store :=
  (default, setitem hash s k default)

/-- Embedding of `copy`: `return self`. -/
def copy (s : Store) : Store := s

/-- The deletion loop of `clear`, over the key snapshot produced by
`__iter__`; a `KeyError` from `__delitem__` aborts the loop with the
store as mutated so far. -/
def clearLoop (hash : String → String) : Store → List String → Store × Option Err
  | s, [] => (s, Option.none)
  | s, k :: ks =>
      match delitem hash s k with
      | Except.ok s' => clearLoop hash s' ks
      | Except.error e => (s, some e)

/-- Embedding of `clear`: delete every key yielded by `__iter__`. -/
def clear (hash : String → String) (s : Store) : Store × Option Err :=
  clearLoop hash s (iterKeys s)

/-- Embedding of `BaseClass.__exit__`: report an active exception and
return `False` (which lets it propagate), return `True` otherwise. -/
def baseExit (excActive : Bool) : Bool :=
  if excActive then false else true

/-- Embedding of `IODict.__exit__`: run `clear`, and in a `finally`
return `BaseClass.__exit__`'s verdict — the `return` swallows any
exception `clear` raised, and the verdict (`true` = suppress the
active exception, `false` = let it re-raise) is the base class's. -/
def exitCtx (hash : String → String) (s : Store) (excActive : Bool) : Store × Bool :=
  ((clear hash s).1, baseExit excActive)

/-- The key a directory entry contributes to iteration:
`_get_item_key` of the file. -/
def entryKey (e : String × Record) : String :=
  get_item_key e.1 e.2

/-- Well-formedness of a store directory: file names are distinct (one
file per key) and each file's recovered key encodes back to the file's
own name — the invariant `__setitem__` maintains for truthy keys. -/
def WF (hash : String → String) (s : Store) : Prop :=
  (s.files.map (fun e => e.1)).Nodup ∧
    ∀ e ∈ s.files, encode hash s.xattr (entryKey e) = e.1

instance (hash : String → String) (s : Store) : Decidable (WF hash s) := by
  unfold WF
  infer_instance

end IODict

/-- A concrete stand-in for the `_object_sha3_224` digest used in
witnesses: prepend a character.  Like the real digest it is injective
and never returns a file name equal to a different key (in particular
`hashC "" ≠ ""`, as `sha3_224("")` is a 56-character hex string). -/
def hashC : String → String := fun s => String.mk ('h' :: s.data)

/-- A freshly initialized store on an xattr-supporting filesystem. -/
def emptyA : Store := { files := [], xattr := true, clock := 0 }

/-- A freshly initialized store on a filesystem without xattr support
(name-based fallback mode). -/
def emptyN : Store := { files := [], xattr := false, clock := 0 }

/-- The store after `set("a", 1)`. -/
def storeA1 : Store := IODict.setitem hashC emptyA "a" (PyVal.int 1)

/-- The store after `set("a", 1); set("b", 2)`. -/
def storeA2 : Store := IODict.setitem hashC storeA1 "b" (PyVal.int 2)

/-- The record backing key `"a"` in `storeA1`. -/
def recA : Record :=
  { value := PyVal.int 1, birthtime := some 0, keyAttr := some "a", ctime := 0 }

/-- The store left by `del store["a"]` on `storeA1`. -/
def storeA1del : Store :=
  { storeA1 with
    files := removeFile storeA1.files (encode hashC storeA1.xattr "a") }

/-- The store after the single call `set("", 1)` on an attribute-backed
store: the empty key is falsy, so `_setxattr` skips `user.key`, and the
record's recovered key is its digest file name `hashC "" = "h"` — which
re-encodes to `"hh"`, not back to `"h"`.  The store is reachable through
the public interface but not well-formed. -/
def storeE : Store := IODict.setitem hashC emptyA "" (PyVal.int 1)

namespace IODict

theorem lookupFile_writeFile_self (l : List (String × Record)) (f : String) (r : Record) :
    lookupFile (writeFile l f r) f = some r := by
  induction l with
  | nil => simp [writeFile, lookupFile]
  | cons e es ih =>
    by_cases h : e.1 = f
    · simp [writeFile, h, lookupFile]
    · simp [writeFile, h, lookupFile, ih]

theorem lookupFile_writeFile_ne (l : List (String × Record)) {f f' : String} (r : Record)
    (h : f' ≠ f) : lookupFile (writeFile l f r) f' = lookupFile l f' := by
  induction l with
  | nil => simp [writeFile, lookupFile, Ne.symm h]
  | cons e es ih =>
    by_cases he : e.1 = f
    · subst he
      simp [writeFile, lookupFile, Ne.symm h]
    · simp only [writeFile, if_neg he, lookupFile]
      by_cases he' : e.1 = f'
      · simp [he']
      · simp [he', ih]

theorem lookupFile_eq_none_iff (l : List (String × Record)) (f : String) :
    lookupFile l f = Option.none ↔ f ∉ l.map (fun e => e.1) := by
  induction l with
  | nil => simp [lookupFile]
  | cons e es ih =>
    by_cases h : e.1 = f
    · simp [lookupFile, h]
    · simp [lookupFile, h, ih, Ne.symm h]

theorem mem_of_lookupFile_eq_some {l : List (String × Record)} {f : String} {r : Record}
    (h : lookupFile l f = some r) : (f, r) ∈ l := by
  induction l with
  | nil => simp [lookupFile] at h
  | cons e es ih =>
    by_cases he : e.1 = f
    · simp only [lookupFile, if_pos he, Option.some.injEq] at h
      subst h; subst he
      exact List.mem_cons_self _ _
    · simp only [lookupFile, if_neg he] at h
      exact List.mem_cons_of_mem _ (ih h)

theorem lookupFile_of_mem_nodup {l : List (String × Record)} {f : String} {r : Record}
    (hm : (f, r) ∈ l) (hd : (l.map (fun e => e.1)).Nodup) : lookupFile l f = some r := by
  induction l with
  | nil => simp at hm
  | cons e es ih =>
    simp only [List.map_cons, List.nodup_cons] at hd
    rcases List.mem_cons.1 hm with h | h
    · subst h; simp [lookupFile]
    · have he : e.1 ≠ f := by
        intro hef
        exact hd.1 (hef ▸ List.mem_map.2 ⟨(f, r), h, rfl⟩)
      simp only [lookupFile, if_neg he]
      exact ih h hd.2

theorem exists_lookupFile_of_mem_fst {l : List (String × Record)} {f : String}
    (h : f ∈ l.map (fun e => e.1)) : ∃ r, lookupFile l f = some r := by
  induction l with
  | nil => simp at h
  | cons e es ih =>
    by_cases he : e.1 = f
    · exact ⟨e.2, by simp [lookupFile, he]⟩
    · rcases List.mem_map.1 h with ⟨a, ha, haf⟩
      rcases List.mem_cons.1 ha with h1 | h1
      · exact absurd (h1 ▸ haf) he
      · exact (ih (List.mem_map.2 ⟨a, h1, haf⟩)).imp fun r hr => by
          simpa [lookupFile, he] using hr

theorem map_fst_removeFile (l : List (String × Record)) (f : String) :
    (removeFile l f).map (fun e => e.1) = (l.map (fun e => e.1)).erase f := by
  induction l with
  | nil => simp [removeFile]
  | cons e es ih =>
    by_cases h : e.1 = f
    · simp [removeFile, h, List.erase_cons]
    · simp [removeFile, h, List.erase_cons, ih]

theorem mem_of_mem_removeFile {l : List (String × Record)} {f : String} {e : String × Record}
    (h : e ∈ removeFile l f) : e ∈ l := by
  induction l with
  | nil => simp [removeFile] at h
  | cons a as ih =>
    by_cases ha : a.1 = f
    · simp only [removeFile, if_pos ha] at h
      exact List.mem_cons_of_mem _ h
    · simp only [removeFile, if_neg ha] at h
      rcases List.mem_cons.1 h with h1 | h1
      · exact h1 ▸ List.mem_cons_self _ _
      · exact List.mem_cons_of_mem _ (ih h1)

theorem lookupFile_removeFile_self {l : List (String × Record)} {f : String}
    (hd : (l.map (fun e => e.1)).Nodup) : lookupFile (removeFile l f) f = Option.none := by
  rw [lookupFile_eq_none_iff, map_fst_removeFile]
  exact hd.not_mem_erase

theorem length_removeFile {l : List (String × Record)} {f : String} {r : Record}
    (h : lookupFile l f = some r) : (removeFile l f).length + 1 = l.length := by
  induction l with
  | nil => simp [lookupFile] at h
  | cons e es ih =>
    by_cases he : e.1 = f
    · simp [removeFile, he]
    · simp only [lookupFile, if_neg he] at h
      simp [removeFile, he, ih h]

theorem writeFile_eq_append {l : List (String × Record)} {f : String} (r : Record)
    (h : lookupFile l f = Option.none) : writeFile l f r = l ++ [(f, r)] := by
  induction l with
  | nil => simp [writeFile]
  | cons e es ih =>
    by_cases he : e.1 = f
    · simp [lookupFile, he] at h
    · simp only [lookupFile, if_neg he] at h
      simp [writeFile, he, ih h]

theorem lookupFile_append (l1 l2 : List (String × Record)) (f : String) :
    lookupFile (l1 ++ l2) f =
      match lookupFile l1 f with
      | some r => some r
      | Option.none => lookupFile l2 f := by
  induction l1 with
  | nil => simp [lookupFile]
  | cons e es ih =>
    by_cases he : e.1 = f
    · simp [lookupFile, he]
    · simp [lookupFile, he, ih]

theorem setxattr_value (x : Bool) (t : Nat) (r : Record) (k : String) :
    (setxattr x t r k).value = r.value := by
  rcases r with ⟨v, bt, ka, ct⟩
  cases x <;> cases bt <;> by_cases hk : k = "" <;> simp [setxattr, hk]

theorem setxattr_birthtime_some (x : Bool) (t : Nat) {r : Record} {b : Nat} (k : String)
    (h : r.birthtime = some b) : (setxattr x t r k).birthtime = some b := by
  rcases r with ⟨v, bt, ka, ct⟩
  cases x <;> by_cases hk : k = "" <;> simp_all [setxattr, hk]

theorem setxattr_ctime (x : Bool) (t : Nat) (r : Record) (k : String) :
    (setxattr x t r k).ctime = r.ctime := by
  rcases r with ⟨v, bt, ka, ct⟩
  cases x <;> cases bt <;> by_cases hk : k = "" <;> simp [setxattr, hk]

theorem setxattr_fresh_create_time (x : Bool) (t : Nat) {r : Record} (k : String)
    (hb : r.birthtime = Option.none) (hc : r.ctime = t) :
    get_create_time (setxattr x t r k) = t := by
  rcases r with ⟨v, bt, ka, ct⟩
  cases x <;> by_cases hk : k = "" <;> simp_all [setxattr, get_create_time, hk]

theorem setitem_xattr (hash : String → String) (s : Store) (k : String) (v : PyVal) :
    (setitem hash s k v).xattr = s.xattr := rfl

theorem setitem_clock (hash : String → String) (s : Store) (k : String) (v : PyVal) :
    (setitem hash s k v).clock = s.clock + 1 := rfl

theorem getitem_setitem_self (hash : String → String) (s : Store) (k : String) (v : PyVal) :
    getitem hash (setitem hash s k v) k = Except.ok v := by
  unfold getitem setitem
  simp only [lookupFile_writeFile_self, setxattr_value]
  cases h : lookupFile s.files (encode hash s.xattr k) <;> simp [h]

end IODict

/-- C1: for every key `k` and every value `v`, performing `set(k, v)`
and then `get(k)` on the store returns `v` — in either encoding mode,
with any digest function. -/
theorem C1_set_then_get (hash : String → String) (s : Store) (k : String) (v : PyVal) :
    IODict.getitem hash (IODict.setitem hash s k v) k = Except.ok v :=
  IODict.getitem_setitem_self hash s k v

/-- C9: `copy()` is the identity: it returns the very same store, so
any mutation through the copy is a mutation of the original and both
always present the same contents. -/
theorem C9_copy_identity (hash : String → String) (s : Store) (k : String) (v : PyVal) :
    IODict.copy s = s ∧
      IODict.setitem hash (IODict.copy s) k v = IODict.setitem hash s k v ∧
      IODict.getitem hash (IODict.copy s) k = IODict.getitem hash s k :=
  ⟨rfl, rfl, rfl⟩

/-- C8: `setdefault(key, default)` unconditionally rewrites `key` to
`default`, even on a store where `key` already holds another value,
and returns `default`. -/
theorem C8_setdefault_overwrites (hash : String → String) (s : Store) (k : String) (d : PyVal) :
    (IODict.setdefault hash s k d).1 = d ∧
      (IODict.setdefault hash s k d).2 = IODict.setitem hash s k d ∧
      IODict.getitem hash (IODict.setdefault hash s k d).2 k = Except.ok d :=
  ⟨rfl, rfl, IODict.getitem_setitem_self hash s k d⟩

/-- C10: the `get` method never raises: on a key with no live record it
returns the supplied default (whatever its truthiness — `None` when
omitted), and on a key with a live record it returns the stored value
regardless of the default argument. -/
theorem C10_get_with_default (hash : String → String) (s : Store) (k : String) (d : PyVal) :
    (lookupFile s.files (encode hash s.xattr k) = Option.none → IODict.get hash s k d = d) ∧
      (∀ r, lookupFile s.files (encode hash s.xattr k) = some r →
        IODict.get hash s k d = r.value) := by
  constructor
  · intro h
    simp [IODict.get, IODict.getitem, h]
  · intro r h
    simp [IODict.get, IODict.getitem, h]

/-- Witness for C10: on the one-record store, `get` of the absent key
`"z"` returns the default `0` and `get` of the present key `"a"`
returns the stored `1`. -/
theorem C10_witness :
    IODict.get hashC storeA1 "z" (PyVal.int 0) = PyVal.int 0 ∧
      IODict.get hashC storeA1 "a" (PyVal.int 0) = PyVal.int 1 :=
  ⟨(C10_get_with_default hashC storeA1 "z" (PyVal.int 0)).1 (by decide),
   (C10_get_with_default hashC storeA1 "a" (PyVal.int 0)).2 recA (by decide)⟩

/-- C3 counterexample: for the absent key `"z"` with the default
argument explicitly supplied as `0` — a falsy value — `pop` still
raises `KeyError("z")` instead of returning the supplied default,
because the source guards the default with `if default:` (truthiness)
rather than checking whether it was provided. -/
theorem C3_counterexample :
    IODict.pop hashC storeA1 "z" (PyVal.int 0) = Except.error (Err.keyError "z") := by
  rfl

/-- C3 (amended): for a key with no live record, `pop` returns the
default exactly when the supplied default is truthy, and raises
`KeyError(key)` whenever the default is falsy — which includes the
`None` used when no default is supplied. -/
theorem C3_pop_absent (hash : String → String) (s : Store) (k : String) (d : PyVal)
    (habs : lookupFile s.files (encode hash s.xattr k) = Option.none) :
    IODict.pop hash s k d =
      if d.truthy then Except.ok (d, s) else Except.error (Err.keyError k) := by
  simp [IODict.pop, IODict.getitem, IODict.delitem, habs]

/-- Witness for C3 (amended): popping the absent key `"z"` with truthy
default `7` returns the default and leaves the store unchanged. -/
theorem C3_witness :
    IODict.pop hashC emptyA "z" (PyVal.int 7) = Except.ok (PyVal.int 7, emptyA) := by
  have h := C3_pop_absent hashC emptyA "z" (PyVal.int 7) (by decide)
  simpa [PyVal.truthy] using h

/-- C6: subscript lookup and delete on a key with no live record raise
`KeyError(key)`, and after a successful delete of a key (on a store
with distinct file names) a subsequent lookup of that key raises
`KeyError(key)`. -/
theorem C6_absent_raises (hash : String → String) (s : Store) (k : String)
    (hd : (s.files.map (fun e => e.1)).Nodup) :
    (lookupFile s.files (encode hash s.xattr k) = Option.none →
        IODict.getitem hash s k = Except.error (Err.keyError k) ∧
          IODict.delitem hash s k = Except.error (Err.keyError k)) ∧
      (∀ s', IODict.delitem hash s k = Except.ok s' →
        IODict.getitem hash s' k = Except.error (Err.keyError k)) := by
  constructor
  · intro h
    exact ⟨by simp [IODict.getitem, h], by simp [IODict.delitem, h]⟩
  · intro s' h
    rcases hl : lookupFile s.files (encode hash s.xattr k) with _ | r
    · simp [IODict.delitem, hl] at h
    · simp only [IODict.delitem, hl, Except.ok.injEq] at h
      subst h
      simp [IODict.getitem, IODict.lookupFile_removeFile_self hd]

/-- Witness for C6: deleting `"a"` from the one-record store succeeds,
and looking `"a"` up afterwards raises `KeyError("a")`. -/
theorem C6_witness :
    IODict.getitem hashC storeA1del "a" = Except.error (Err.keyError "a") :=
  (C6_absent_raises hashC storeA1 "a" (by decide)).2 storeA1del (by rfl)

namespace IODict

theorem map_writeFile_of_lookup {α : Type} (T : String × Record → α)
    {l : List (String × Record)} {f : String} {r r' : Record}
    (hl : lookupFile l f = some r) (hT : T (f, r') = T (f, r)) :
    (writeFile l f r').map T = l.map T := by
  induction l with
  | nil => simp [lookupFile] at hl
  | cons e es ih =>
    by_cases he : e.1 = f
    · simp only [lookupFile, if_pos he, Option.some.injEq] at hl
      subst hl
      have he2 : (f, e.2) = e := by
        rw [← he]
      simp only [writeFile, if_pos he, List.map_cons]
      rw [hT, he2]
    · simp only [lookupFile, if_neg he] at hl
      simp [writeFile, he, ih hl]

end IODict

/-- C4: re-writing an existing key leaves its `user.birthtime`
attribute untouched (it is stamped only at the first write), and as a
consequence the key sequence produced by iteration — hence the key's
position in creation-time order — is unchanged by the re-write. -/
theorem C4_rewrite_keeps_birthtime (hash : String → String) (s : Store) (k : String)
    (v : PyVal) (r : Record) (b : Nat)
    (hx : s.xattr = true)
    (hl : lookupFile s.files (encode hash s.xattr k) = some r)
    (hb : r.birthtime = some b)
    (hk : r.keyAttr = some k) :
    (∃ r', lookupFile (IODict.setitem hash s k v).files (encode hash s.xattr k) = some r' ∧
        r'.birthtime = some b) ∧
      IODict.iterKeys (IODict.setitem hash s k v) = IODict.iterKeys s := by
  rcases r with ⟨rv, rbt, rka, rct⟩
  simp only at hb hk
  subst hb
  subst hk
  have hfiles : (IODict.setitem hash s k v).files =
      writeFile s.files (encode hash s.xattr k)
        (IODict.setxattr s.xattr s.clock
          { value := v, birthtime := some b, keyAttr := some k, ctime := s.clock } k) := by
    simp [IODict.setitem, hl]
  constructor
  · refine ⟨_, by rw [hfiles]; exact IODict.lookupFile_writeFile_self _ _ _, ?_⟩
    exact IODict.setxattr_birthtime_some _ _ _ rfl
  · have hT : (fun e => (IODict.get_item_key e.1 e.2, IODict.get_create_time e.2, e.1))
        (encode hash s.xattr k,
          IODict.setxattr s.xattr s.clock
            { value := v, birthtime := some b, keyAttr := some k, ctime := s.clock } k) =
        (fun e => (IODict.get_item_key e.1 e.2, IODict.get_create_time e.2, e.1))
          (encode hash s.xattr k,
            { value := rv, birthtime := some b, keyAttr := some k, ctime := rct }) := by
      rw [hx]
      by_cases hke : k = "" <;>
        simp [IODict.setxattr, IODict.get_item_key, IODict.get_create_time, hke]
    have htr : IODict.iterTriples (IODict.setitem hash s k v) = IODict.iterTriples s := by
      unfold IODict.iterTriples
      rw [hfiles]
      exact IODict.map_writeFile_of_lookup _ hl hT
    unfold IODict.iterKeys IODict.iterSorted
    rw [htr]

/-- Witness for C4: re-writing key `"a"` (present with birthtime `0`)
with the new value `9` keeps birthtime `0` and the iteration order. -/
theorem C4_witness :
    (∃ r', lookupFile (IODict.setitem hashC storeA1 "a" (PyVal.int 9)).files
        (encode hashC storeA1.xattr "a") = some r' ∧ r'.birthtime = some 0) ∧
      IODict.iterKeys (IODict.setitem hashC storeA1 "a" (PyVal.int 9)) =
        IODict.iterKeys storeA1 :=
  C4_rewrite_keeps_birthtime hashC storeA1 "a" (PyVal.int 9) recA 0 rfl (by decide) rfl rfl

namespace IODict

theorem timeLE_trans : ∀ a b c : String × Nat × String,
    timeLE a b → timeLE b c → timeLE a c := by
  intro a b c hab hbc
  simp only [timeLE, decide_eq_true_eq] at hab hbc ⊢
  omega

theorem timeLE_total : ∀ a b : String × Nat × String, timeLE a b || timeLE b a := by
  intro a b
  simp only [timeLE, Bool.or_eq_true, decide_eq_true_eq]
  omega

theorem iterSorted_pairwise (u : Store) :
    (iterSorted u).Pairwise (fun a b => a.2.1 ≤ b.2.1) := by
  have h := List.sorted_mergeSort timeLE_trans timeLE_total (iterTriples u)
  exact h.imp fun hab => by simpa [timeLE] using hab

theorem iterSorted_stable (u : Store) (a b : String × Nat × String)
    (hsub : List.Sublist [a, b] (iterTriples u)) (htie : a.2.1 = b.2.1) :
    List.Sublist [a, b] (iterSorted u) :=
  List.pair_sublist_mergeSort timeLE_trans timeLE_total (by simp [timeLE, htie]) hsub

theorem encode_injective (hash : String → String) (x : Bool)
    (hinj : Function.Injective hash) : Function.Injective (encode hash x) := by
  cases x
  · intro a b h
    simpa [encode] using h
  · intro a b h
    exact hinj (by simpa [encode] using h)

theorem setitem_fresh_files (hash : String → String) (s : Store) (k : String) (v : PyVal)
    (hfresh : lookupFile s.files (encode hash s.xattr k) = Option.none) :
    (setitem hash s k v).files =
      s.files ++ [(encode hash s.xattr k,
        setxattr s.xattr s.clock
          { value := v, birthtime := Option.none, keyAttr := Option.none, ctime := s.clock } k)] := by
  simp [setitem, hfresh, writeFile_eq_append]

theorem fresh_entry_key (hash : String → String) (x : Bool) (cl : Nat) (k : String)
    (v : PyVal) (hk : k ≠ "") :
    get_item_key (encode hash x k)
      (setxattr x cl { value := v, birthtime := Option.none, keyAttr := Option.none, ctime := cl } k) =
      k := by
  cases x <;> simp [setxattr, get_item_key, encode, hk]

theorem fresh_entry_time (x : Bool) (cl : Nat) (k : String) (v : PyVal) :
    get_create_time
      (setxattr x cl { value := v, birthtime := Option.none, keyAttr := Option.none, ctime := cl } k) =
      cl := by
  cases x <;> by_cases hk : k = "" <;> simp [setxattr, get_create_time, hk]

theorem iterKeys_order_of_writes (hash : String → String) (s : Store)
    (k1 k2 : String) (v1 v2 : PyVal)
    (hinj : Function.Injective hash)
    (h1 : k1 ≠ "") (h2 : k2 ≠ "") (hne : k1 ≠ k2)
    (hf1 : lookupFile s.files (encode hash s.xattr k1) = Option.none)
    (hf2 : lookupFile s.files (encode hash s.xattr k2) = Option.none) :
    ∃ i j : Nat, i < j ∧
      (iterKeys (setitem hash (setitem hash s k1 v1) k2 v2))[i]? = some k1 ∧
      (iterKeys (setitem hash (setitem hash s k1 v1) k2 v2))[j]? = some k2 := by
  have hfn : encode hash s.xattr k1 ≠ encode hash s.xattr k2 :=
    fun h => hne (encode_injective hash s.xattr hinj h)
  have hs1 : (setitem hash s k1 v1).files = s.files ++
      [(encode hash s.xattr k1,
        setxattr s.xattr s.clock
          { value := v1, birthtime := Option.none, keyAttr := Option.none, ctime := s.clock } k1)] :=
    setitem_fresh_files hash s k1 v1 hf1
  have hx1 : (setitem hash s k1 v1).xattr = s.xattr := rfl
  have hc1 : (setitem hash s k1 v1).clock = s.clock + 1 := rfl
  have hf2' : lookupFile (setitem hash s k1 v1).files
      (encode hash (setitem hash s k1 v1).xattr k2) = Option.none := by
    rw [hs1, hx1, lookupFile_append, hf2]
    simp [lookupFile, hfn]
  have hs2 : (setitem hash (setitem hash s k1 v1) k2 v2).files = s.files ++
      [(encode hash s.xattr k1,
        setxattr s.xattr s.clock
          { value := v1, birthtime := Option.none, keyAttr := Option.none, ctime := s.clock } k1)] ++
      [(encode hash s.xattr k2,
        setxattr s.xattr (s.clock + 1)
          { value := v2, birthtime := Option.none, keyAttr := Option.none,
            ctime := s.clock + 1 } k2)] := by
    have h := setitem_fresh_files hash (setitem hash s k1 v1) k2 v2 hf2'
    rw [hs1, hx1, hc1] at h
    exact h
  have htr : iterTriples (setitem hash (setitem hash s k1 v1) k2 v2) =
      s.files.map (fun e => (get_item_key e.1 e.2, get_create_time e.2, e.1)) ++
        [(k1, s.clock, encode hash s.xattr k1), (k2, s.clock + 1, encode hash s.xattr k2)] := by
    unfold iterTriples
    rw [hs2]
    simp only [List.map_append, List.map_cons, List.map_nil]
    rw [fresh_entry_key hash s.xattr s.clock k1 v1 h1, fresh_entry_time s.xattr s.clock k1 v1,
      fresh_entry_key hash s.xattr (s.clock + 1) k2 v2 h2,
      fresh_entry_time s.xattr (s.clock + 1) k2 v2]
    simp
  have hm1 : (k1, s.clock, encode hash s.xattr k1) ∈
      iterSorted (setitem hash (setitem hash s k1 v1) k2 v2) := by
    unfold iterSorted
    rw [List.mem_mergeSort, htr]
    simp
  have hm2 : (k2, s.clock + 1, encode hash s.xattr k2) ∈
      iterSorted (setitem hash (setitem hash s k1 v1) k2 v2) := by
    unfold iterSorted
    rw [List.mem_mergeSort, htr]
    simp
  obtain ⟨i, hi, hgi⟩ := List.getElem_of_mem hm1
  obtain ⟨j, hj, hgj⟩ := List.getElem_of_mem hm2
  have hij : i < j := by
    rcases Nat.lt_trichotomy i j with h | h | h
    · exact h
    · exfalso
      subst h
      have h12 : ((k1, s.clock, encode hash s.xattr k1) : String × Nat × String) =
          (k2, s.clock + 1, encode hash s.xattr k2) := by
        rw [← hgi, ← hgj]
      have hcl := congrArg (fun p => p.2.1) h12
      dsimp only at hcl
      omega
    · exfalso
      have hpw := iterSorted_pairwise (setitem hash (setitem hash s k1 v1) k2 v2)
      have hle := (List.pairwise_iff_getElem.1 hpw) j i hj hi h
      rw [hgi, hgj] at hle
      dsimp only at hle
      omega
  refine ⟨i, j, hij, ?_, ?_⟩
  · unfold iterKeys
    rw [List.getElem?_map, List.getElem?_eq_getElem hi, hgi]
    rfl
  · unfold iterKeys
    rw [List.getElem?_map, List.getElem?_eq_getElem hj, hgj]
    rfl

end IODict

namespace IODict

theorem hashC_injective : Function.Injective hashC := by
  intro a b h
  rcases a with ⟨la⟩
  rcases b with ⟨lb⟩
  have h2 : 'h' :: la = 'h' :: lb := congrArg String.data h
  have h3 : la = lb := by injection h2
  rw [h3]

end IODict

/-- C5 counterexample: writing the distinct keys `""` then `"b"` on an
attribute-backed store does not yield `""` before `"b"` — the key `""`
is never yielded at all, because `_setxattr` guards the `user.key`
write with `if key:` and so a falsy key is stored with no key
metadata; iteration then recovers the digest file name, not `""`. -/
theorem C5_counterexample :
    "" ∉ IODict.iterKeys
        (IODict.setitem hashC (IODict.setitem hashC emptyA "" (PyVal.int 1)) "b"
          (PyVal.int 2)) := by
  have h : IODict.iterSorted
      (IODict.setitem hashC (IODict.setitem hashC emptyA "" (PyVal.int 1)) "b" (PyVal.int 2)) =
      IODict.iterTriples
        (IODict.setitem hashC (IODict.setitem hashC emptyA "" (PyVal.int 1)) "b" (PyVal.int 2)) :=
    List.mergeSort_of_sorted (by decide)
  unfold IODict.iterKeys
  rw [h]
  decide

/-- C5 (amended): every full iteration yields keys sorted by ascending
creation time, with ties broken by discovery order (the sort is
stable); and writing the distinct non-empty keys `k1` then `k2`, both
fresh, yields `k1` strictly before `k2` (with a collision-free
digest). -/
theorem C5_iteration_sorted (hash : String → String) (s : Store)
    (k1 k2 : String) (v1 v2 : PyVal)
    (hinj : Function.Injective hash)
    (h1 : k1 ≠ "") (h2 : k2 ≠ "") (hne : k1 ≠ k2)
    (hf1 : lookupFile s.files (encode hash s.xattr k1) = Option.none)
    (hf2 : lookupFile s.files (encode hash s.xattr k2) = Option.none) :
    (∀ u : Store, (IODict.iterSorted u).Pairwise (fun a b => a.2.1 ≤ b.2.1)) ∧
      (∀ (u : Store) (a b : String × Nat × String),
        List.Sublist [a, b] (IODict.iterTriples u) → a.2.1 = b.2.1 →
          List.Sublist [a, b] (IODict.iterSorted u)) ∧
      (∃ i j : Nat, i < j ∧
        (IODict.iterKeys (IODict.setitem hash (IODict.setitem hash s k1 v1) k2 v2))[i]? =
          some k1 ∧
        (IODict.iterKeys (IODict.setitem hash (IODict.setitem hash s k1 v1) k2 v2))[j]? =
          some k2) :=
  ⟨IODict.iterSorted_pairwise,
   IODict.iterSorted_stable,
   IODict.iterKeys_order_of_writes hash s k1 k2 v1 v2 hinj h1 h2 hne hf1 hf2⟩

/-- Witness for C5: on the empty attribute-backed store, writing `"a"`
then `"b"` yields `"a"` strictly before `"b"`, and the iteration
outputs are sorted. -/
theorem C5_witness :
    (∀ u : Store, (IODict.iterSorted u).Pairwise (fun a b => a.2.1 ≤ b.2.1)) ∧
      (∀ (u : Store) (a b : String × Nat × String),
        List.Sublist [a, b] (IODict.iterTriples u) → a.2.1 = b.2.1 →
          List.Sublist [a, b] (IODict.iterSorted u)) ∧
      (∃ i j : Nat, i < j ∧
        (IODict.iterKeys (IODict.setitem hashC (IODict.setitem hashC emptyA "a" (PyVal.int 1))
          "b" (PyVal.int 2)))[i]? = some "a" ∧
        (IODict.iterKeys (IODict.setitem hashC (IODict.setitem hashC emptyA "a" (PyVal.int 1))
          "b" (PyVal.int 2)))[j]? = some "b") :=
  C5_iteration_sorted hashC emptyA "a" "b" (PyVal.int 1) (PyVal.int 2)
    IODict.hashC_injective (by decide) (by decide) (by decide) (by decide) (by decide)

namespace IODict

theorem clearLoop_empties (hash : String → String) (x : Bool) (cl : Nat) :
    ∀ (ks : List String) (fs : List (String × Record)),
      List.Perm (ks.map (encode hash x)) (fs.map (fun e => e.1)) →
      (fs.map (fun e => e.1)).Nodup →
      clearLoop hash { files := fs, xattr := x, clock := cl } ks =
        ({ files := [], xattr := x, clock := cl }, Option.none) := by
  intro ks
  induction ks with
  | nil =>
    intro fs hperm _
    simp only [List.map_nil] at hperm
    have h0 : fs.map (fun e => e.1) = [] := hperm.symm.eq_nil
    have hfs : fs = [] := List.map_eq_nil_iff.mp h0
    subst hfs
    rfl
  | cons k ks ih =>
    intro fs hperm hnd
    simp only [List.map_cons] at hperm
    have hm : encode hash x k ∈ fs.map (fun e => e.1) :=
      hperm.subset (List.mem_cons_self _ _)
    obtain ⟨r, hr⟩ := exists_lookupFile_of_mem_fst hm
    have hdel : delitem hash { files := fs, xattr := x, clock := cl } k =
        Except.ok { files := removeFile fs (encode hash x k), xattr := x, clock := cl } := by
      simp [delitem, hr]
    simp only [clearLoop]
    rw [hdel]
    apply ih
    · rw [map_fst_removeFile]
      exact (List.cons_perm_iff_perm_erase.1 hperm).2
    · rw [map_fst_removeFile]
      exact List.Nodup.erase _ hnd

theorem iterKeys_encode_perm (hash : String → String) (s : Store) (hwf : WF hash s) :
    List.Perm ((iterKeys s).map (encode hash s.xattr)) (s.files.map (fun e => e.1)) := by
  unfold iterKeys iterSorted iterTriples
  rw [List.map_map]
  have hperm := List.mergeSort_perm
    (s.files.map (fun e => (get_item_key e.1 e.2, get_create_time e.2, e.1))) timeLE
  refine (hperm.map (encode hash s.xattr ∘ fun e => e.1)).trans ?_
  rw [List.map_map]
  exact List.Perm.of_eq (List.map_congr_left (fun e he => hwf.2 e he))

theorem clear_of_WF (hash : String → String) (s : Store) (hwf : WF hash s) :
    clear hash s = ({ files := [], xattr := s.xattr, clock := s.clock }, Option.none) := by
  unfold clear
  have hperm := iterKeys_encode_perm hash s hwf
  have hnd := hwf.1
  rcases s with ⟨fs, x, cl⟩
  exact clearLoop_empties hash x cl _ fs hperm hnd

end IODict

/-- C2 counterexample: both halves of the claim fail in the source.
First, with an exception active at scope exit, the exit handler
returns `False` (the base class prints the traceback and returns
`False`), and in Python a falsy `__exit__` return lets the active
exception re-raise — it is not suppressed.  Second, the clearing is
not unconditional: on the reachable store after `set("", 1)`, `clear`
looks the yielded digest key up under its re-encoded file name, gets
`KeyError`, and aborts — the `finally`-guarded return swallows the
error and the record survives scope exit. -/
theorem C2_counterexample :
    (IODict.exitCtx hashC storeA2 true).2 ≠ true ∧
      (IODict.exitCtx hashC storeE false).1.files ≠ [] := by
  constructor
  · decide
  · have h : IODict.iterSorted storeE = IODict.iterTriples storeE :=
      List.mergeSort_of_sorted (by decide)
    unfold IODict.exitCtx IODict.clear IODict.iterKeys
    rw [h]
    decide

/-- C2 (amended): on scope exit the store attempts to clear all stored
records, and succeeds — the directory is left empty — whenever the
store is well-formed (file names distinct, each record's recovered key
re-encoding to its own file name; a `KeyError` during clearing is
otherwise swallowed by the `finally`-guarded return, with the
remaining records surviving).  The exit verdict ignores clearing
entirely: the handler returns `True` exactly when no exception is
active; an active exception is reported and the handler returns
`False`, so the exception propagates instead of being suppressed. -/
theorem C2_exit_behavior (hash : String → String) (s : Store) (exc : Bool) :
    (IODict.WF hash s → (IODict.exitCtx hash s exc).1.files = []) ∧
      (IODict.exitCtx hash s exc).2 = !exc := by
  constructor
  · intro hwf
    unfold IODict.exitCtx
    rw [IODict.clear_of_WF hash s hwf]
  · cases exc <;> rfl

/-- Witness for C2 (amended): exiting the well-formed two-record store
with an active exception leaves no records and returns `False`. -/
theorem C2_witness :
    (IODict.exitCtx hashC storeA2 true).1.files = [] ∧
      (IODict.exitCtx hashC storeA2 true).2 = !true :=
  ⟨(C2_exit_behavior hashC storeA2 true).1 (by decide),
   (C2_exit_behavior hashC storeA2 true).2⟩

namespace IODict

theorem len_eq_length (s : Store) : len s = s.files.length := by
  unfold len iterKeys iterSorted iterTriples
  simp

end IODict

/-- C7 counterexample: on the reachable non-empty store after
`set("", 1)`, `popitem` neither raises the empty-store error nor
returns and removes the earliest record — iteration yields the digest
file name `"h"` as the key (no `user.key` was written for the falsy
key), `pop` then looks up its re-encoding `"hh"`, which does not
exist, and `popitem` raises `KeyError("h")` with the record left in
place. -/
theorem C7_counterexample :
    storeE.files ≠ [] ∧
      IODict.popitem hashC storeE = Except.error (Err.keyError "h") := by
  constructor
  · decide
  · have h : IODict.iterSorted storeE = IODict.iterTriples storeE :=
      List.mergeSort_of_sorted (by decide)
    unfold IODict.popitem IODict.iterKeys
    rw [h]
    rfl

/-- C7 (amended): `popitem` on a store with zero records raises the
empty-store error `KeyError("popitem(): dictionary is empty")`; on a
non-empty well-formed store (file names distinct, each record's
recovered key re-encoding to its own file name — which holds whenever
all keys were written non-empty) it returns the value of a record
whose creation time is minimal (the earliest-created record), removes
exactly that record, and the store's size decreases by one. -/
theorem C7_popitem_earliest (hash : String → String) (s : Store) (hwf : IODict.WF hash s) :
    (s.files = [] →
        IODict.popitem hash s =
          Except.error (Err.keyError "popitem(): dictionary is empty")) ∧
      (s.files ≠ [] → ∃ fn r, (fn, r) ∈ s.files ∧
        (∀ e ∈ s.files, IODict.get_create_time r ≤ IODict.get_create_time e.2) ∧
        IODict.popitem hash s = Except.ok (r.value, { s with files := removeFile s.files fn }) ∧
        IODict.len { s with files := removeFile s.files fn } + 1 = IODict.len s) := by
  constructor
  · intro h
    have hk : IODict.iterKeys s = [] := by
      unfold IODict.iterKeys IODict.iterSorted IODict.iterTriples
      rw [h]
      simp
    unfold IODict.popitem
    rw [hk]
  · intro hne
    rcases hS : IODict.iterSorted s with _ | ⟨t0, rest⟩
    · exfalso
      have hlen : (IODict.iterSorted s).length = s.files.length := by
        unfold IODict.iterSorted IODict.iterTriples
        simp
      rw [hS] at hlen
      simp at hlen
      exact hne (List.length_eq_zero.mp hlen.symm)
    · have ht0' : t0 ∈ IODict.iterSorted s := by
        rw [hS]
        exact List.mem_cons_self _ _
      have ht0 : t0 ∈ IODict.iterTriples s := by
        unfold IODict.iterSorted at ht0'
        exact List.mem_mergeSort.mp ht0'
      obtain ⟨e, he, hTe⟩ := List.mem_map.1 ht0
      have ht0time : t0.2.1 = IODict.get_create_time e.2 := by
        rw [← hTe]
      have ht0key : t0.1 = IODict.get_item_key e.1 e.2 := by
        rw [← hTe]
      have hmin : ∀ e' ∈ s.files, IODict.get_create_time e.2 ≤ IODict.get_create_time e'.2 := by
        intro e' he'
        have hmem : ((IODict.get_item_key e'.1 e'.2, IODict.get_create_time e'.2, e'.1) :
            String × Nat × String) ∈ IODict.iterSorted s := by
          unfold IODict.iterSorted
          rw [List.mem_mergeSort]
          exact List.mem_map.2 ⟨e', he', rfl⟩
        rw [hS] at hmem
        have hpw := IODict.iterSorted_pairwise s
        rw [hS] at hpw
        rcases List.mem_cons.1 hmem with h0 | h0
        · have hc := congrArg (fun p => p.2.1) h0
          dsimp only at hc
          rw [ht0time] at hc
          omega
        · have hhead := (List.pairwise_cons.1 hpw).1 _ h0
          dsimp only at hhead
          rw [ht0time] at hhead
          exact hhead
      have hlk0 : lookupFile s.files e.1 = some e.2 :=
        IODict.lookupFile_of_mem_nodup he hwf.1
      have henc : encode hash s.xattr t0.1 = e.1 := by
        rw [ht0key]
        exact hwf.2 e he
      have hkeys : IODict.iterKeys s = t0.1 :: rest.map (fun p => p.1) := by
        unfold IODict.iterKeys
        rw [hS]
        rfl
      have hpop : IODict.popitem hash s =
          Except.ok (e.2.value, { s with files := removeFile s.files e.1 }) := by
        unfold IODict.popitem
        rw [hkeys]
        simp [IODict.pop, IODict.getitem, IODict.delitem, henc, hlk0]
      have hlenr : IODict.len { s with files := removeFile s.files e.1 } + 1 = IODict.len s := by
        rw [IODict.len_eq_length, IODict.len_eq_length]
        exact IODict.length_removeFile hlk0
      exact ⟨e.1, e.2, he, hmin, hpop, hlenr⟩

/-- Witness for C7: on the two-record store (`"a"` written before
`"b"`), `popitem` removes the earliest record and the size drops by
one; its conclusion is instantiated here with both hypotheses
discharged on concrete data. -/
theorem C7_witness :
    ∃ fn r, (fn, r) ∈ storeA2.files ∧
      (∀ e ∈ storeA2.files, IODict.get_create_time r ≤ IODict.get_create_time e.2) ∧
      IODict.popitem hashC storeA2 =
        Except.ok (r.value, { storeA2 with files := removeFile storeA2.files fn }) ∧
      IODict.len { storeA2 with files := removeFile storeA2.files fn } + 1 =
        IODict.len storeA2 :=
  (C7_popitem_earliest hashC storeA2 (by decide)).2 (by decide)
